import Mathlib

/-! Shallow embedding of the semantic document store of the
financial-assistant repository: `src/vector_store/embed_and_store.py`
(class `VectorStore` over a FAISS `IndexFlatIP` with pickle persistence)
and `src/retriever_agent/retriever_service.py` (FastAPI endpoints over a
module-level FAISS `IndexFlatL2` and `doc_store` list).

Machine floats are modelled by rationals.  The FAISS padding sentinel for
queries with `k` larger than `ntotal` (label `-1`, distance minus
infinity for inner product) is modelled by the label `-1 : Int` and the
score `⊥ : WithBot ℚ`.  The sentence-transformers embedder is an external
collaborator and is passed in as a function `String → Vec`. -/

/-- An embedding vector: an ordered sequence of numbers. -/
abbrev Vec := List ℚ

/-- A metadata mapping (a Python dict with string keys), modelled as an
association list; `metadata.get("text", "")` becomes
`(List.lookup "text" m).getD ""`. -/
abbrev Metadata := List (String × String)

/-- Exceptions that `VectorStore.add_documents` can raise:
`emptyBatch` is `ValueError("No documents provided to add.")`;
`notRectangular` is numpy failing to stack ragged embedding rows into a
2-D array (before any index mutation); `dimensionMismatch` is the faiss
`add` dimension assertion; `persistenceFailure` is `faiss.write_index`
or `pickle.dump` raising inside `_save`. -/
inductive StoreErr where
  | emptyBatch
  | notRectangular
  | dimensionMismatch
  | persistenceFailure
deriving DecidableEq

/-- Exceptions that can escape the query path: `indexError` is a Python
IndexError from list indexing, `shapeError` is the faiss assertion on the
query width, `badK` is the faiss assertion that `k > 0`. -/
inductive PyErr where
  | indexError
  | shapeError
  | badK
deriving DecidableEq

/-- A FAISS flat index: the fixed dimension `d` plus the stored vectors in
insertion order.  `IndexFlatIP` and `IndexFlatL2` share this storage
shape; only the search metric differs. -/
structure FaissIndex where
  d : Nat
  vectors : List Vec
deriving DecidableEq

/-- FAISS `Index.add`: the Python wrapper unpacks the batch shape `(n, d)`
and asserts `d == self.d` before any vector is copied, so a failed add
mutates nothing.  An empty batch (numpy shape `(0,)`, as produced by
encoding an empty document list) fails the same shape unpacking. -/
def FaissIndex.add (idx : FaissIndex) (vs : List Vec) : Except StoreErr FaissIndex :=
  if vs.isEmpty then .error .notRectangular
  else if vs.all (fun v => v.length = idx.d) then .ok ⟨idx.d, idx.vectors ++ vs⟩
  else .error .dimensionMismatch

/-- Pair each stored vector with its insertion position, starting at `base`. -/
def withPos (base : Int) : List Vec → List (Int × Vec)
  | [] => []
  | v :: vs => (base, v) :: withPos (base + 1) vs

/-- Inner product of two vectors. -/
def ipScore (q v : Vec) : ℚ := (List.zipWith (fun a b => a * b) q v).sum

/-- Squared Euclidean distance between two vectors. -/
def l2Dist (q v : Vec) : ℚ := (List.zipWith (fun a b => (a - b) * (a - b)) q v).sum

/-- Insert into a list sorted by the Boolean test `le` (stable). -/
def insertLE (le : α → α → Bool) (a : α) : List α → List α
  | [] => [a]
  | b :: bs => if le a b then a :: b :: bs else b :: insertLE le a bs

/-- Insertion sort by `le`: models FAISS's deterministic exact scan order. -/
def sortLE (le : α → α → Bool) : List α → List α
  | [] => []
  | a :: as => insertLE le a (sortLE le as)

/-- `IndexFlatIP.search` on a single query row: brute-force inner-product
scores against every stored vector, best (largest) first with ties broken
by lower insertion position; when `k` exceeds `ntotal` the remaining
slots are padded with label `-1` and distance minus infinity (`⊥`).  The
Python wrapper asserts the query width matches `d` and that `k > 0`. -/
def FaissIndex.searchIP (idx : FaissIndex) (q : Vec) (k : Nat) :
    Except PyErr (List (Int × WithBot ℚ)) :=
  if q.length ≠ idx.d then .error .shapeError
  else if k = 0 then .error .badK
  else
    let scored := (withPos 0 idx.vectors).map
      (fun p => (p.1, ((ipScore q p.2 : ℚ) : WithBot ℚ)))
    let top := (sortLE (fun a b => decide (b.2 < a.2 ∨ (a.2 = b.2 ∧ a.1 ≤ b.1))) scored).take k
    .ok (top ++ List.replicate (k - top.length) ((-1 : Int), (⊥ : WithBot ℚ)))

/-- `IndexFlatL2.search` on a single query row, labels only (the retriever
endpoint discards the distances): ascending squared distance, ties by
lower position, padded with label `-1` when `k` exceeds `ntotal`. -/
def FaissIndex.searchL2 (idx : FaissIndex) (q : Vec) (k : Nat) :
    Except PyErr (List Int) :=
  if q.length ≠ idx.d then .error .shapeError
  else if k = 0 then .error .badK
  else
    let scored := (withPos 0 idx.vectors).map (fun p => (p.1, l2Dist q p.2))
    let top := (sortLE (fun a b => decide (a.2 < b.2 ∨ (a.2 = b.2 ∧ a.1 ≤ b.1))) scored).take k
    .ok (top.map Prod.fst ++ List.replicate (k - top.length) (-1 : Int))

/-- Python list indexing with a possibly negative index: `l[i]` is
`l[len(l) + i]` for negative `i`; out of range raises IndexError
(modelled as `none`). -/
def pyGet (l : List α) (i : Int) : Option α :=
  if 0 ≤ i then l.get? i.toNat
  else if 0 ≤ (l.length : Int) + i then l.get? ((l.length : Int) + i).toNat
  else none

/-- The in-memory state of `VectorStore`: `self.index` (a faiss index or
`None`) and `self.metadata` (the parallel list of dicts). -/
structure VectorStore where
  index : Option FaissIndex
  metadata : List Metadata
deriving DecidableEq

/-- The vectors held by the store's index: `ntotal` rows, or nothing when
the index object is absent. -/
def VectorStore.vecList (st : VectorStore) : List Vec :=
  match st.index with
  | none => []
  | some idx => idx.vectors

/-- The number of vectors held by the store (`self.index.ntotal`, or 0
when the index is `None`). -/
def VectorStore.vecCount (st : VectorStore) : Nat := st.vecList.length

/-- One result row of `VectorStore.query`: the guard
`if idx < len(self.metadata)` admits FAISS's `-1` padding label, which
Python list indexing then resolves from the end of the metadata list; a
record found there yields `doc_meta.get("text", "")`, an out-of-range
non-negative label yields the empty string. -/
def resolveOne (md : List Metadata) (p : Int × WithBot ℚ) :
    Except PyErr (String × WithBot ℚ) :=
  if p.1 < (md.length : Int) then
    match pyGet md p.1 with
    | some m => .ok ((List.lookup "text" m).getD "", p.2)
    | none => .error .indexError
  else .ok ("", p.2)

/-- The result loop of `VectorStore.query` over `zip(D[0], I[0])`. -/
def resolveEntries (md : List Metadata) :
    List (Int × WithBot ℚ) → Except PyErr (List (String × WithBot ℚ))
  | [] => .ok []
  | p :: ps => do
      let e ← resolveOne md p
      let rest ← resolveEntries md ps
      .ok (e :: rest)

/-- `VectorStore.query`: returns `[]` for a missing or empty index before
embedding anything; otherwise embeds the query, searches the inner-product
index, and resolves each returned label to a document text. -/
def VectorStore.query (e : String → Vec) (st : VectorStore) (q : String) (k : Nat) :
    Except PyErr (List (String × WithBot ℚ)) :=
  match st.index with
  | none => .ok []
  | some idx =>
    if idx.vectors.isEmpty then .ok []
    else do
      let sr ← idx.searchIP (e q) k
      resolveEntries st.metadata sr

/-- One persisted artifact: present on disk it either parses back to a
value or raises on read. -/
inductive Artifact (α : Type) where
  | ok (a : α)
  | corrupt
deriving DecidableEq

/-- The two persisted files of `VectorStore`: the faiss index file and the
pickled metadata file. -/
structure Disk where
  indexFile : Option (Artifact FaissIndex)
  metaFile : Option (Artifact (List Metadata))
deriving DecidableEq

/-- A disk with no persisted artifacts. -/
def emptyDisk : Disk := ⟨none, none⟩

/-- `VectorStore._load`: when both files exist, read both inside one
`try`; any exception is caught and the store silently reset to
`(None, [])`; when either file is missing, start fresh.  There is no
consistency check between the two artifacts. -/
def VectorStore.load (d : Disk) : VectorStore :=
  match d.indexFile, d.metaFile with
  | some (.ok idx), some (.ok md) => ⟨some idx, md⟩
  | some _, some _ => ⟨none, []⟩
  | _, _ => ⟨none, []⟩

/-- `VectorStore._save`: writes both artifacts when the index object is
present (truthy); does nothing when `self.index` is `None`. -/
def VectorStore.save (st : VectorStore) (d : Disk) : Disk :=
  match st.index with
  | none => d
  | some idx => ⟨some (.ok idx), some (.ok st.metadata)⟩

/-- A process state: the in-memory store plus the on-disk artifacts. -/
structure Sys where
  store : VectorStore
  disk : Disk
deriving DecidableEq

/-- `VectorStore.__init__`: build the in-memory state by `_load`ing the
disk. -/
def Sys.init (d : Disk) : Sys := ⟨VectorStore.load d, d⟩

/-- The metadata list actually extended onto `self.metadata`: the given
one, or `[{}] * len(docs)` when the argument is `None`. -/
def metaUsed (docs : List String) (metadatas : Option (List Metadata)) : List Metadata :=
  metadatas.getD (List.replicate docs.length ([] : Metadata))

/-- Outcome of the durable write inside `_save`, which runs
`faiss.write_index(self.index, index_path)` first and only then
`pickle.dump` into the freshly opened metadata file: either both writes
complete; or `faiss.write_index` raises before touching the file, or
raises mid-write leaving a corrupt index file; or the index file is fully
rewritten and the metadata write fails — before the `open` truncates
(stale metadata file kept) or after it (corrupt metadata file). -/
inductive SaveOutcome where
  | ok
  | indexWriteFail
  | indexWriteCorrupt
  | metaWriteFail
  | metaWriteCorrupt
deriving DecidableEq

/-- `VectorStore.add_documents`.  `sv` is the outcome of the durable
write inside `_save`; on any failing outcome the Python call raises but
`self` keeps every mutation already applied, so the model returns the
post-call state paired with the raised exception, if any.  Steps, in
source order: reject an empty batch; encode the batch
(`dim = embeddings.shape[1]` fails on a ragged batch before any
mutation); create an `IndexFlatIP` of the batch dimension if
`self.index is None`; `self.index.add`; `self.metadata.extend`;
`self._save()`. -/
def add_documents (e : String → Vec) (sv : SaveOutcome) (s : Sys)
    (docs : List String) (metadatas : Option (List Metadata)) :
    Sys × Option StoreErr :=
  if docs.isEmpty then (s, some .emptyBatch)
  else
    let embeddings := docs.map e
    let dim := (embeddings.headD []).length
    if ¬ embeddings.all (fun v => v.length = dim) then (s, some .notRectangular)
    else
      let idx0 := s.store.index.getD ⟨dim, []⟩
      match idx0.add embeddings with
      | .error err => (s, some err)
      | .ok idx1 =>
        let store1 : VectorStore := ⟨some idx1, s.store.metadata ++ metaUsed docs metadatas⟩
        match sv with
        | .ok => ((⟨store1, store1.save s.disk⟩ : Sys), none)
        | .indexWriteFail => ((⟨store1, s.disk⟩ : Sys), some .persistenceFailure)
        | .indexWriteCorrupt =>
            ((⟨store1, ⟨some .corrupt, s.disk.metaFile⟩⟩ : Sys), some .persistenceFailure)
        | .metaWriteFail =>
            ((⟨store1, ⟨some (.ok idx1), s.disk.metaFile⟩⟩ : Sys), some .persistenceFailure)
        | .metaWriteCorrupt =>
            ((⟨store1, ⟨some (.ok idx1), some .corrupt⟩⟩ : Sys), some .persistenceFailure)

/-- `VectorStore.add_texts_with_metadata`: add the documents with each
text stored under the `"text"` key of its own metadata dict. -/
def add_texts_with_metadata (e : String → Vec) (sv : SaveOutcome) (s : Sys)
    (docs : List String) : Sys × Option StoreErr :=
  add_documents e sv s docs (some (docs.map (fun d => [("text", d)])))

/-- The retriever service's module-level state: the `IndexFlatL2` created
with the embedder's dimension, and the parallel `doc_store` list. -/
structure RetrState where
  index : FaissIndex
  doc_store : List String
deriving DecidableEq

/-- Response of `POST /index-docs`. -/
inductive IndexResp where
  | success (indexed_docs : Nat)
  | httpError (code : Nat)
deriving DecidableEq

/-- Response of `POST /retrieve`. -/
inductive RetrieveResp where
  | success (chunks : List String)
  | httpError (code : Nat)
deriving DecidableEq

/-- `POST /index-docs`: encode the documents, `index.add`, then extend
`doc_store`.  Any exception — including an empty batch, whose encoded
array has shape `(0,)` and fails inside `index.add` before any mutation —
is caught by the blanket `except Exception` and reported as HTTP 500. -/
def index_docs (e : String → Vec) (st : RetrState) (documents : List String) :
    RetrState × IndexResp :=
  match st.index.add (documents.map e) with
  | .error _ => (st, .httpError 500)
  | .ok idx1 => (⟨idx1, st.doc_store ++ documents⟩, .success documents.length)

/-- The doc lookup `[doc_store[i] for i in I[0] if i < len(doc_store)]`:
the comparison admits FAISS's `-1` padding label, which Python then
resolves from the end of `doc_store` (raising IndexError only when
`doc_store` is empty). -/
def gatherDocs (ds : List String) : List Int → Except PyErr (List String)
  | [] => .ok []
  | i :: is =>
    if i < (ds.length : Int) then
      match pyGet ds i with
      | some t => do
          let rest ← gatherDocs ds is
          .ok (t :: rest)
      | none => .error .indexError
    else gatherDocs ds is

/-- `POST /retrieve`: embed the query; raise `HTTPException(404)` when the
index is empty; search; gather the texts.  The handler body runs inside a
blanket `except Exception` that catches every raised exception — the
intended 404 included — and reports HTTP 500. -/
def retrieve_docs (e : String → Vec) (st : RetrState) (q : String) (k : Nat) :
    RetrieveResp :=
  let body : Except Unit (List String) :=
    if st.index.vectors.isEmpty then .error ()
    else
      match st.index.searchL2 (e q) k with
      | .error _ => .error ()
      | .ok labels =>
        match gatherDocs st.doc_store labels with
        | .error _ => .error ()
        | .ok docs => .ok docs
  match body with
  | .ok docs => .success docs
  | .error _ => .httpError 500

/-- States reachable from `s0` by `add_documents` calls that completed
without raising. -/
inductive ReachFrom (e : String → Vec) (s0 : Sys) : Sys → Prop where
  | refl : ReachFrom e s0 s0
  | step (s : Sys) (docs : List String) (mds : Option (List Metadata)) (so : SaveOutcome) :
      ReachFrom e s0 s → (add_documents e so s docs mds).2 = none →
      ReachFrom e s0 (add_documents e so s docs mds).1

/-- `ReachHist e s hist`: the state `s` is reached from the empty store
by non-raising `add_documents` calls whose concatenated ingest history is
`hist` — each entry pairs a text, in ingest order, with the record
supplied alongside it in the same call (the per-call metadatas argument
is omitted or matches the batch length, the way every caller in the
repository invokes it). -/
inductive ReachHist (e : String → Vec) :
    Sys → List (String × Metadata) → Prop where
  | init : ReachHist e (Sys.init emptyDisk) []
  | step (s : Sys) (hist : List (String × Metadata)) (docs : List String)
      (mds : Option (List Metadata)) (so : SaveOutcome) :
      ReachHist e s hist →
      (mds = none ∨ ∃ l, mds = some l ∧ l.length = docs.length) →
      (add_documents e so s docs mds).2 = none →
      ReachHist e (add_documents e so s docs mds).1
        (hist ++ docs.zip (metaUsed docs mds))

/-- Retriever-service states reachable from the freshly constructed
module state by successful `/index-docs` calls. -/
inductive ReachR (e : String → Vec) (dim : Nat) : RetrState → Prop where
  | init : ReachR e dim ⟨⟨dim, []⟩, []⟩
  | step (st : RetrState) (docs : List String) (n : Nat) :
      ReachR e dim st → (index_docs e st docs).2 = IndexResp.success n →
      ReachR e dim (index_docs e st docs).1

/-- A concrete one-dimensional embedder used by witnesses: every text maps
to the unit vector `[1]`. -/
def embedOne : String → Vec := fun _ => [1]

/-- A concrete two-dimensional embedder used by witnesses: every text maps
to the vector `[1, 1]`. -/
def embedTwo : String → Vec := fun _ => [1, 1]

/-- Rebuild a pair equation from an equation about its second component. -/
theorem eq_pair_of_snd_eq {α β : Type _} {p : α × β} {b : β} (h : p.2 = b) :
    p = (p.1, b) := by
  rw [← h]

/-- Inversion for a successful faiss `add`: the batch was nonempty, matched
the index dimension, and was appended in order. -/
theorem faiss_add_ok {idx : FaissIndex} {vs : List Vec} {idx1 : FaissIndex}
    (h : FaissIndex.add idx vs = .ok idx1) :
    idx1 = ⟨idx.d, idx.vectors ++ vs⟩ ∧ vs ≠ [] ∧ ∀ v ∈ vs, v.length = idx.d := by
  simp only [FaissIndex.add] at h
  split at h
  next hemp => simp at h
  next hemp =>
    split at h
    next hall =>
      refine ⟨(Except.ok.inj h).symm, by simpa [List.isEmpty_iff] using hemp, ?_⟩
      intro v hv
      simpa using List.all_eq_true.mp hall v hv
    next hall => simp at h

/-- Inversion for a non-raising `add_documents` call: the save succeeded,
the batch was nonempty and rectangular of some width `d0` equal to the
pre-existing index dimension (when there was one), the vectors and
metadata were extended in parallel, and the new state was saved. -/
theorem add_documents_success {e : String → Vec} {so : SaveOutcome} {s s' : Sys}
    {docs : List String} {mds : Option (List Metadata)}
    (h : add_documents e so s docs mds = (s', none)) :
    so = SaveOutcome.ok ∧ docs ≠ [] ∧
    ∃ d0 : Nat,
      (∀ v ∈ docs.map e, v.length = d0) ∧
      (∀ idx, s.store.index = some idx → idx.d = d0) ∧
      s'.store = ⟨some ⟨d0, s.store.vecList ++ docs.map e⟩,
        s.store.metadata ++ metaUsed docs mds⟩ ∧
      s'.disk = VectorStore.save s'.store s.disk := by
  simp only [add_documents] at h
  split at h
  next hd => simp at h
  next hd =>
    split at h
    next hrect => simp at h
    next hrect =>
      split at h
      next err heq => simp at h
      next idx1 heq =>
        split at h
        next =>
          set dim := ((docs.map e).headD []).length with hdim
          set idx0 := s.store.index.getD ⟨dim, []⟩ with hidx0
          have hne : docs ≠ [] := by
            intro hnil
            exact hd (by simp [hnil])
          obtain ⟨hidx1, hvs, hvlen⟩ := faiss_add_ok heq
          have hvecs : idx0.vectors = s.store.vecList := by
            cases hsi : s.store.index with
            | none => simp [hidx0, hsi, VectorStore.vecList]
            | some idx => simp [hidx0, hsi, VectorStore.vecList]
          have hs' : s' = ⟨⟨some idx1, s.store.metadata ++ metaUsed docs mds⟩,
              VectorStore.save ⟨some idx1, s.store.metadata ++ metaUsed docs mds⟩ s.disk⟩ :=
            ((Prod.mk.injEq _ _ _ _).mp h).1.symm
          refine ⟨rfl, hne, idx0.d, hvlen, ?_, ?_, ?_⟩
          · intro idx hidx
            simp [hidx0, hidx]
          · rw [hs', hidx1, hvecs]
          · rw [hs']
        next => simp at h
        next => simp at h
        next => simp at h
        next => simp at h

/-- Loading what `_save` wrote for a store with an index object present
recovers exactly that store. -/
theorem load_save {st : VectorStore} {idx : FaissIndex} (h : st.index = some idx)
    (d : Disk) : VectorStore.load (st.save d) = st := by
  cases st with
  | mk i m =>
    subst h
    simp [VectorStore.save, VectorStore.load]

/-- After any sequence of non-raising `add_documents` calls, reloading the
persisted artifacts reproduces the in-memory store exactly. -/
theorem reach_load {e : String → Vec} {d : Disk} {s : Sys}
    (h : ReachFrom e (Sys.init d) s) : VectorStore.load s.disk = s.store := by
  induction h with
  | refl => rfl
  | step s1 docs mds so hr hok ih =>
    obtain ⟨hso, hne, d0, hvlen, hdim, hst, hdisk⟩ :=
      add_documents_success (eq_pair_of_snd_eq hok)
    rw [hdisk]
    exact load_save (by rw [hst]) s1.disk

/-- Inversion for a successful `/index-docs` call: the nonempty,
dimension-correct batch was appended to the index and to `doc_store` in
parallel. -/
theorem index_docs_success {e : String → Vec} {st st' : RetrState}
    {docs : List String} {n : Nat}
    (h : index_docs e st docs = (st', IndexResp.success n)) :
    st'.index = ⟨st.index.d, st.index.vectors ++ docs.map e⟩ ∧
    st'.doc_store = st.doc_store ++ docs ∧ n = docs.length := by
  simp only [index_docs] at h
  split at h
  next heq => simp at h
  next idx1 heq =>
    obtain ⟨h1, h2⟩ := (Prod.mk.injEq _ _ _ _).mp h
    obtain ⟨hidx1, hvs, hlen⟩ := faiss_add_ok heq
    refine ⟨?_, ?_, (IndexResp.success.inj h2).symm⟩
    · rw [← h1, ← hidx1]
    · rw [← h1]

/-- Claim C9: for every store state reached by successful ingests (from
any starting disk), loading the persisted artifacts in a fresh process
yields a store whose query results — positions and scores — are identical
to those of the pre-save in-memory store, for every query text and top_k. -/
theorem c9_roundtrip {e : String → Vec} {d : Disk} {s : Sys}
    (h : ReachFrom e (Sys.init d) s) (q : String) (k : Nat) :
    VectorStore.query e (VectorStore.load s.disk) q k =
      VectorStore.query e s.store q k := by
  rw [reach_load h]

/-- Witness for C9 at a concrete one-ingest history. -/
theorem c9_roundtrip_witness :
    (add_documents embedOne SaveOutcome.ok (Sys.init emptyDisk) ["a"] none).2 = none ∧
    VectorStore.query embedOne
      (VectorStore.load (add_documents embedOne SaveOutcome.ok (Sys.init emptyDisk) ["a"] none).1.disk)
      "q" 1 =
    VectorStore.query embedOne
      (add_documents embedOne SaveOutcome.ok (Sys.init emptyDisk) ["a"] none).1.store "q" 1 :=
  ⟨by decide,
    c9_roundtrip (ReachFrom.step _ ["a"] none SaveOutcome.ok ReachFrom.refl (by decide)) "q" 1⟩

/-- Claim C4: querying a store that holds no vectors (no index object, or
an index with zero vectors) returns the empty result list from
`VectorStore.query` and never raises, for every query text and top_k. -/
theorem c4_empty_query (e : String → Vec) (st : VectorStore) (q : String) (k : Nat)
    (h : st.index = none ∨ ∃ idx, st.index = some idx ∧ idx.vectors = []) :
    VectorStore.query e st q k = .ok [] := by
  rcases h with h | ⟨idx, hidx, hvec⟩
  · simp [VectorStore.query, h]
  · simp [VectorStore.query, hidx, hvec]

/-- Witness for C4 at the freshly constructed store. -/
theorem c4_empty_query_witness :
    VectorStore.query embedOne (VectorStore.load emptyDisk) "q" 5 = .ok [] :=
  c4_empty_query embedOne _ "q" 5 (Or.inl rfl)

/-- Claim C5 (amended): `add_documents` with an empty batch raises
`ValueError` and leaves the state (vector count and records, in memory
and on disk) exactly unchanged; the `/index-docs` endpoint with an empty
batch also leaves its state unchanged but reports the failure as an HTTP
500 server error, not a 4xx client error. -/
theorem c5_emptybatch_amended :
    (∀ (e : String → Vec) (so : SaveOutcome) (s : Sys) (mds : Option (List Metadata)),
      add_documents e so s [] mds = (s, some StoreErr.emptyBatch))
  ∧ ∀ (e : String → Vec) (st : RetrState),
      index_docs e st [] = (st, IndexResp.httpError 500) :=
  ⟨fun _ _ _ _ => rfl, fun _ _ => rfl⟩

/-- Counterexample for C5 as stated: the `/index-docs` endpoint answers an
empty batch with HTTP 500 (a server error), not the claimed 4xx client
error. -/
theorem c5_emptybatch_counterexample :
    index_docs embedOne ⟨⟨1, []⟩, []⟩ [] = (⟨⟨1, []⟩, []⟩, IndexResp.httpError 500) := by
  decide

/-- Claim C6 (amended): `_load` returns a fresh empty store when either
artifact is missing; when both exist but either is corrupt it silently
resets to a fresh empty store instead of failing with `CorruptState`; and
when both parse it loads them as-is with no consistency check between the
vector count and the record count. -/
theorem c6_load_amended (d : Disk) :
    (d.indexFile = none ∨ d.metaFile = none → VectorStore.load d = ⟨none, []⟩)
  ∧ (d.indexFile = some .corrupt ∨ d.metaFile = some .corrupt →
      VectorStore.load d = ⟨none, []⟩)
  ∧ ∀ (idx : FaissIndex) (md : List Metadata),
      d.indexFile = some (.ok idx) → d.metaFile = some (.ok md) →
      VectorStore.load d = ⟨some idx, md⟩ := by
  obtain ⟨fi, fm⟩ := d
  refine ⟨?_, ?_, ?_⟩
  · rintro (h | h) <;> subst h
    · rfl
    · rcases fi with _ | a
      · rfl
      · cases a <;> rfl
  · rintro (h | h) <;> subst h
    · rcases fm with _ | b
      · rfl
      · cases b <;> rfl
    · rcases fi with _ | a
      · rfl
      · cases a <;> rfl
  · intro idx md h1 h2
    subst h1
    subst h2
    rfl

/-- Witness for C6 (amended) at concrete disks: a missing-artifact disk, a
corrupt disk, and a parseable but count-inconsistent disk. -/
theorem c6_load_witness :
    VectorStore.load emptyDisk = ⟨none, []⟩ ∧
    VectorStore.load ⟨some .corrupt, some (.ok [])⟩ = ⟨none, []⟩ ∧
    VectorStore.load ⟨some (.ok ⟨1, [[1]]⟩), some (.ok [])⟩ = ⟨some ⟨1, [[1]]⟩, []⟩ :=
  ⟨(c6_load_amended emptyDisk).1 (Or.inl rfl),
   (c6_load_amended ⟨some .corrupt, some (.ok [])⟩).2.1 (Or.inl rfl),
   (c6_load_amended ⟨some (.ok ⟨1, [[1]]⟩), some (.ok [])⟩).2.2 ⟨1, [[1]]⟩ [] rfl rfl⟩

/-- Counterexample for C6 as stated: with a corrupt index artifact on disk
`_load` silently resets to a fresh empty store (no `CorruptState`
failure), and with mutually inconsistent artifacts (one vector, zero
records) it loads them verbatim, without failing or resetting. -/
theorem c6_load_counterexample :
    VectorStore.load ⟨some .corrupt, some (.ok [[("text", "x")]])⟩ = ⟨none, []⟩ ∧
    (VectorStore.load ⟨some (.ok ⟨1, [[1]]⟩), some (.ok [])⟩).vecCount = 1 ∧
    (VectorStore.load ⟨some (.ok ⟨1, [[1]]⟩), some (.ok [])⟩).metadata.length = 0 := by
  refine ⟨rfl, rfl, rfl⟩

/-- Claim C2 (amended): every `add_documents` failure raised before the
index mutation (empty batch, ragged embedding output, dimension mismatch)
leaves the process state exactly unchanged; a persistence failure,
however, leaves the in-memory store already extended by the whole batch —
vectors and records both, consistently — while the call raises (and the
on-disk artifacts may themselves be left partially rewritten, since
`faiss.write_index` completes before `pickle.dump` runs); every failing
`/index-docs` call leaves the service state exactly unchanged. -/
theorem c2_atomicity_amended :
    (∀ (e : String → Vec) (so : SaveOutcome) (s s' : Sys) (docs : List String)
        (mds : Option (List Metadata)) (err : StoreErr),
      add_documents e so s docs mds = (s', some err) →
      err ≠ StoreErr.persistenceFailure → s' = s)
  ∧ (∀ (e : String → Vec) (so : SaveOutcome) (s s' : Sys) (docs : List String)
        (mds : Option (List Metadata)),
      add_documents e so s docs mds = (s', some StoreErr.persistenceFailure) →
      s'.store.metadata = s.store.metadata ++ metaUsed docs mds ∧
      s'.store.vecCount = s.store.vecCount + docs.length)
  ∧ ∀ (e : String → Vec) (st st' : RetrState) (docs : List String) (c : Nat),
      index_docs e st docs = (st', IndexResp.httpError c) → st' = st := by
  refine ⟨?_, ?_, ?_⟩
  · intro e so s s' docs mds err h hp
    simp only [add_documents] at h
    split at h
    next hd => exact ((Prod.mk.injEq _ _ _ _).mp h).1.symm
    next hd =>
      split at h
      next hrect => exact ((Prod.mk.injEq _ _ _ _).mp h).1.symm
      next hrect =>
        split at h
        next e1 heq => exact ((Prod.mk.injEq _ _ _ _).mp h).1.symm
        next idx1 heq =>
          split at h
          next => simp at h
          next =>
            exfalso
            exact hp (Option.some.inj ((Prod.mk.injEq _ _ _ _).mp h).2).symm
          next =>
            exfalso
            exact hp (Option.some.inj ((Prod.mk.injEq _ _ _ _).mp h).2).symm
          next =>
            exfalso
            exact hp (Option.some.inj ((Prod.mk.injEq _ _ _ _).mp h).2).symm
          next =>
            exfalso
            exact hp (Option.some.inj ((Prod.mk.injEq _ _ _ _).mp h).2).symm
  · intro e so s s' docs mds h
    simp only [add_documents] at h
    split at h
    next hd => simp at h
    next hd =>
      split at h
      next hrect => simp at h
      next hrect =>
        split at h
        next e1 heq =>
          obtain ⟨h1, h2⟩ := (Prod.mk.injEq _ _ _ _).mp h
          have he1 : e1 = StoreErr.persistenceFailure := Option.some.inj h2
          subst he1
          simp only [FaissIndex.add] at heq
          split at heq
          next hemp => simp at heq
          next hemp =>
            split at heq
            next hall => simp at heq
            next hall => simp at heq
        next idx1 heq =>
          split at h
          next => simp at h
          next =>
            obtain ⟨h1, h2⟩ := (Prod.mk.injEq _ _ _ _).mp h
            obtain ⟨hidx1, hvs, hvlen⟩ := faiss_add_ok heq
            have hvecs : (s.store.index.getD
                ⟨((docs.map e).headD []).length, []⟩).vectors = s.store.vecList := by
              cases hsi : s.store.index with
              | none => simp [hsi, VectorStore.vecList]
              | some idx => simp [hsi, VectorStore.vecList]
            refine ⟨by rw [← h1], ?_⟩
            rw [← h1]
            simp only [VectorStore.vecCount, VectorStore.vecList, hidx1, hvecs]
            simp [List.length_append]
          next =>
            obtain ⟨h1, h2⟩ := (Prod.mk.injEq _ _ _ _).mp h
            obtain ⟨hidx1, hvs, hvlen⟩ := faiss_add_ok heq
            have hvecs : (s.store.index.getD
                ⟨((docs.map e).headD []).length, []⟩).vectors = s.store.vecList := by
              cases hsi : s.store.index with
              | none => simp [hsi, VectorStore.vecList]
              | some idx => simp [hsi, VectorStore.vecList]
            refine ⟨by rw [← h1], ?_⟩
            rw [← h1]
            simp only [VectorStore.vecCount, VectorStore.vecList, hidx1, hvecs]
            simp [List.length_append]
          next =>
            obtain ⟨h1, h2⟩ := (Prod.mk.injEq _ _ _ _).mp h
            obtain ⟨hidx1, hvs, hvlen⟩ := faiss_add_ok heq
            have hvecs : (s.store.index.getD
                ⟨((docs.map e).headD []).length, []⟩).vectors = s.store.vecList := by
              cases hsi : s.store.index with
              | none => simp [hsi, VectorStore.vecList]
              | some idx => simp [hsi, VectorStore.vecList]
            refine ⟨by rw [← h1], ?_⟩
            rw [← h1]
            simp only [VectorStore.vecCount, VectorStore.vecList, hidx1, hvecs]
            simp [List.length_append]
          next =>
            obtain ⟨h1, h2⟩ := (Prod.mk.injEq _ _ _ _).mp h
            obtain ⟨hidx1, hvs, hvlen⟩ := faiss_add_ok heq
            have hvecs : (s.store.index.getD
                ⟨((docs.map e).headD []).length, []⟩).vectors = s.store.vecList := by
              cases hsi : s.store.index with
              | none => simp [hsi, VectorStore.vecList]
              | some idx => simp [hsi, VectorStore.vecList]
            refine ⟨by rw [← h1], ?_⟩
            rw [← h1]
            simp only [VectorStore.vecCount, VectorStore.vecList, hidx1, hvecs]
            simp [List.length_append]
  · intro e st st' docs c h
    simp only [index_docs] at h
    split at h
    next heq => exact ((Prod.mk.injEq _ _ _ _).mp h).1.symm
    next idx1 heq => simp at h

/-- Witness for C2 (amended), discharging each part at a concrete input:
an empty-batch failure leaves the state unchanged; a one-document ingest
whose metadata write fails after the index write leaves one vector and
one record in memory; an `/index-docs` failure leaves the service state
unchanged. -/
theorem c2_atomicity_witness :
    Sys.init emptyDisk = Sys.init emptyDisk ∧
    ((add_documents embedOne SaveOutcome.metaWriteFail
          (Sys.init emptyDisk) ["a"] none).1.store.metadata =
        (Sys.init emptyDisk).store.metadata ++ metaUsed ["a"] none ∧
      (add_documents embedOne SaveOutcome.metaWriteFail
          (Sys.init emptyDisk) ["a"] none).1.store.vecCount =
        (Sys.init emptyDisk).store.vecCount + 1) ∧
    (⟨⟨1, []⟩, []⟩ : RetrState) = ⟨⟨1, []⟩, []⟩ :=
  ⟨c2_atomicity_amended.1 embedOne SaveOutcome.ok (Sys.init emptyDisk)
      (Sys.init emptyDisk) [] none StoreErr.emptyBatch (by decide) (by decide),
   c2_atomicity_amended.2.1 embedOne SaveOutcome.metaWriteFail (Sys.init emptyDisk)
      (add_documents embedOne SaveOutcome.metaWriteFail
        (Sys.init emptyDisk) ["a"] none).1 ["a"] none
      (eq_pair_of_snd_eq (by decide)),
   c2_atomicity_amended.2.2 embedOne ⟨⟨1, []⟩, []⟩ ⟨⟨1, []⟩, []⟩ [] 500 (by decide)⟩

/-- Counterexample for C2 as stated: a one-document ingest whose metadata
write raises after `faiss.write_index` completed is a failed call, yet
the in-memory vector count went from 0 to 1 — the store's observable
state after the failed call differs from its state before it. -/
theorem c2_atomicity_counterexample :
    (add_documents embedOne SaveOutcome.metaWriteFail
        (Sys.init emptyDisk) ["a"] none).2 = some StoreErr.persistenceFailure ∧
    (add_documents embedOne SaveOutcome.metaWriteFail
        (Sys.init emptyDisk) ["a"] none).1.store.vecCount = 1 ∧
    (Sys.init emptyDisk).store.vecCount = 0 := by
  refine ⟨by decide, by decide, by decide⟩

/-- Claim C3, evaluated at the failing input (code bug): a store holding
exactly one ingested document, queried with top_k = 2, returns TWO result
entries — the FAISS padding label `-1` passes the `idx < len(metadata)`
guard and Python's negative indexing resolves it to the last record, with
the minus-infinity sentinel as its score — exceeding the claimed bound
min(top_k, vector_count) = 1; the `/retrieve` doc lookup has the same
flaw and returns the last document twice. -/
theorem c3_kbound_bug :
    VectorStore.query embedOne
      (add_documents embedOne SaveOutcome.ok (Sys.init emptyDisk) ["a"] none).1.store "q" 2 =
      .ok [("", ((1 : ℚ) : WithBot ℚ)), ("", (⊥ : WithBot ℚ))] ∧
    retrieve_docs embedOne (index_docs embedOne ⟨⟨1, []⟩, []⟩ ["docA"]).1 "q" 2 =
      .success ["docA", "docA"] := by
  constructor
  · norm_num [VectorStore.query, add_documents, Sys.init, emptyDisk, VectorStore.load,
      metaUsed, FaissIndex.add, VectorStore.save, embedOne, FaissIndex.searchIP, withPos,
      ipScore, sortLE, insertLE, resolveEntries, resolveOne, pyGet, Except.bind, bind]
  · norm_num [retrieve_docs, index_docs, FaissIndex.add, FaissIndex.searchL2, withPos,
      l2Dist, sortLE, insertLE, gatherDocs, pyGet, embedOne, Except.bind, bind]

/-- Claim C7, evaluated at the failing input (code bug): a `/retrieve`
request arriving while the index holds zero vectors is answered with HTTP
500 — the handler's own `HTTPException(404)` is caught by its blanket
`except Exception` and replaced by a 500 server error, so the claimed
4xx client error never reaches the client. -/
theorem c7_empty_retrieve_bug :
    retrieve_docs embedOne ⟨⟨1, []⟩, []⟩ "any question" 3 =
      RetrieveResp.httpError 500 := by
  decide

/-- Every index object reachable by non-raising `add_documents` calls from
a state whose index is well-formed keeps all stored vectors at the index
dimension. -/
theorem reach_wf {e : String → Vec} {s0 s : Sys}
    (hs0 : ∀ idx, s0.store.index = some idx → ∀ v ∈ idx.vectors, v.length = idx.d)
    (h : ReachFrom e s0 s) :
    ∀ idx, s.store.index = some idx → ∀ v ∈ idx.vectors, v.length = idx.d := by
  induction h with
  | refl => exact hs0
  | step s1 docs mds so hr hok ih =>
    obtain ⟨hso, hne, d0, hvlen, hdim, hst, hdisk⟩ :=
      add_documents_success (eq_pair_of_snd_eq hok)
    intro idx hidx v hv
    rw [hst] at hidx
    have hidx2 : idx = ⟨d0, s1.store.vecList ++ docs.map e⟩ := (Option.some.inj hidx).symm
    subst hidx2
    rcases List.mem_append.mp hv with hv1 | hv2
    · cases hsi : s1.store.index with
      | none => simp [VectorStore.vecList, hsi] at hv1
      | some idx0 =>
        have : v.length = idx0.d := by
          apply ih idx0 hsi
          simpa [VectorStore.vecList, hsi] using hv1
        rw [this]
        exact hdim idx0 hsi
    · exact hvlen v hv2

/-- Claim C8: on a store instance started empty, after any sequence of
non-raising ingests every stored vector has the same length as the first
vector ever added (the head of the stored sequence); and an
`add_documents` call whose (rectangular) embedded batch has a width
different from the existing index dimension always fails with the
dimension-mismatch error and leaves the whole state unchanged. -/
theorem c8_dimension_invariant :
    (∀ (e : String → Vec) (s : Sys), ReachFrom e (Sys.init emptyDisk) s →
      ∀ idx, s.store.index = some idx →
      ∀ v ∈ idx.vectors, v.length = (idx.vectors.headD []).length)
  ∧ ∀ (e : String → Vec) (so : SaveOutcome) (s : Sys) (docs : List String)
      (mds : Option (List Metadata)) (idx : FaissIndex),
      s.store.index = some idx → docs ≠ [] →
      (∀ v ∈ docs.map e, v.length = ((docs.map e).headD []).length) →
      ((docs.map e).headD []).length ≠ idx.d →
      add_documents e so s docs mds = (s, some StoreErr.dimensionMismatch) := by
  constructor
  · intro e s hreach idx hidx v hv
    have hwf := reach_wf
      (by intro idx0 h0 v0 hv0; simp [Sys.init, emptyDisk, VectorStore.load] at h0) hreach
    have h1 : v.length = idx.d := hwf idx hidx v hv
    have hne : idx.vectors ≠ [] := by
      intro hnil
      rw [hnil] at hv
      simp at hv
    obtain ⟨w, ws, hws⟩ := List.exists_cons_of_ne_nil hne
    have h2 : (idx.vectors.headD []).length = idx.d := by
      apply hwf idx hidx
      rw [hws]
      simp
    rw [h1, h2]
  · intro e so s docs mds idx hidx hne hrect hdim
    obtain ⟨x, xs, rfl⟩ := List.exists_cons_of_ne_nil hne
    have hrect2 : ((e x :: xs.map e).all fun v => decide (v.length = (e x).length)) = true := by
      rw [List.all_eq_true]
      intro v hv
      simpa using hrect v (by simpa using hv)
    have hfail : FaissIndex.add idx (e x :: xs.map e) = .error .dimensionMismatch := by
      simp only [FaissIndex.add]
      rw [if_neg (by simp)]
      rw [if_neg ?hc]
      case hc =>
        intro hall
        have := List.all_eq_true.mp hall (e x) (by simp)
        simp at this
        exact hdim (by simpa using this)
    simp only [add_documents]
    rw [if_neg (by simp)]
    rw [if_neg (not_not_intro (by simpa using hrect2))]
    simp only [hidx, Option.getD_some, List.map_cons]
    rw [hfail]

/-- Witness for C8 at concrete inputs: the one-document store from a real
ingest satisfies the head-length invariant, and a two-wide batch against
its one-dimensional index fails with the dimension-mismatch error leaving
the state unchanged. -/
theorem c8_dimension_witness :
    ([1] : Vec).length = (([[1]] : List Vec).headD []).length ∧
    add_documents embedTwo SaveOutcome.ok
        (add_documents embedOne SaveOutcome.ok (Sys.init emptyDisk) ["a"] none).1 ["b"] none =
      ((add_documents embedOne SaveOutcome.ok (Sys.init emptyDisk) ["a"] none).1,
        some StoreErr.dimensionMismatch) :=
  ⟨c8_dimension_invariant.1 embedOne _
      (ReachFrom.step _ ["a"] none SaveOutcome.ok ReachFrom.refl (by decide))
      ⟨1, [[1]]⟩ (by decide) [1] (by decide),
   c8_dimension_invariant.2 embedTwo SaveOutcome.ok
      (add_documents embedOne SaveOutcome.ok (Sys.init emptyDisk) ["a"] none).1 ["b"] none
      ⟨1, [[1]]⟩ (by decide) (by decide) (by decide) (by decide)⟩
/-- After any sequence of non-raising `add_documents` calls from the
empty store, each passing a metadata list of the batch length (or none),
the stored vectors are the embeddings of the actually ingested texts in
ingest order, and the stored records are the records supplied alongside
those texts, in the same order. -/
theorem reachHist_inv {e : String → Vec} {s : Sys}
    {hist : List (String × Metadata)} (h : ReachHist e s hist) :
    s.store.vecList = hist.map (fun p => e p.1) ∧
    s.store.metadata = hist.map Prod.snd := by
  induction h with
  | init => exact ⟨rfl, rfl⟩
  | step s1 hist docs mds so hr hm hok ih =>
    obtain ⟨hv, hm2⟩ := ih
    obtain ⟨hso, hne, d0, hvlen, hdim, hst, hdisk⟩ :=
      add_documents_success (eq_pair_of_snd_eq hok)
    have hmu : (metaUsed docs mds).length = docs.length := by
      rcases hm with rfl | ⟨l, rfl, hl⟩
      · simp [metaUsed]
      · simp [metaUsed, hl]
    refine ⟨?_, ?_⟩
    · have hvl : (add_documents e so s1 docs mds).1.store.vecList =
          s1.store.vecList ++ docs.map e := by
        rw [hst]
        simp [VectorStore.vecList]
      rw [hvl, hv, List.map_append]
      congr 1
      rw [show (fun p : String × Metadata => e p.1) = (e ∘ Prod.fst) from rfl, ← List.map_map]
      rw [List.map_fst_zip docs _ (by rw [hmu])]
    · have hml : (add_documents e so s1 docs mds).1.store.metadata =
          s1.store.metadata ++ metaUsed docs mds := by
        rw [hst]
      rw [hml, hm2, List.map_append]
      congr 1
      rw [List.map_snd_zip docs _ (by rw [hmu])]

/-- After any sequence of successful `/index-docs` calls from the fresh
module state, the index rows are exactly the embeddings of `doc_store`
in order. -/
theorem reachR_inv {e : String → Vec} {dim : Nat} {st : RetrState} (h : ReachR e dim st) :
    st.index.vectors = st.doc_store.map e := by
  induction h with
  | init => rfl
  | step st1 docs n hr hok ih =>
    obtain ⟨hidx, hds, hn⟩ := index_docs_success (eq_pair_of_snd_eq hok)
    rw [hidx, hds]
    simp [ih]

/-- Claim C1 (amended): starting from an empty store, after every sequence
of non-raising `add_documents` calls whose metadatas argument is omitted
or matches the batch length, the vector count equals the record count and
the two collections are the projections of one ingest history (the vector
at position i is the embedding of the text ingested at position i, whose
record sits at position i); the `/index-docs` pair satisfies the same
parity and correspondence unconditionally over successful calls. -/
theorem c1_parity_amended :
    (∀ (e : String → Vec) (s : Sys) (hist : List (String × Metadata)),
      ReachHist e s hist →
      s.store.vecCount = s.store.metadata.length ∧
      s.store.vecList = hist.map (fun p => e p.1) ∧
      s.store.metadata = hist.map Prod.snd ∧
      ∀ i : Nat,
        s.store.vecList[i]? = hist[i]?.map (fun p => e p.1) ∧
        s.store.metadata[i]? = hist[i]?.map Prod.snd)
  ∧ ∀ (e : String → Vec) (dim : Nat) (st : RetrState), ReachR e dim st →
      st.index.vectors.length = st.doc_store.length ∧
      st.index.vectors = st.doc_store.map e := by
  constructor
  · intro e s hist h
    obtain ⟨hv, hm⟩ := reachHist_inv h
    refine ⟨?_, hv, hm, ?_⟩
    · rw [VectorStore.vecCount, hv, hm]
      simp
    · intro i
      rw [hv, hm]
      simp [List.getElem?_map]
  · intro e dim st h
    have hinv := reachR_inv h
    refine ⟨?_, hinv⟩
    rw [hinv]
    simp

/-- Witness for C1 (amended) at concrete one-call histories for both the
store and the service: after ingesting `"a"`, position 0 holds the
embedding of `"a"` and the record supplied with it. -/
theorem c1_parity_witness :
    (add_documents embedOne SaveOutcome.ok (Sys.init emptyDisk) ["a"] none).1.store.vecCount =
      (add_documents embedOne SaveOutcome.ok
        (Sys.init emptyDisk) ["a"] none).1.store.metadata.length ∧
    (add_documents embedOne SaveOutcome.ok
        (Sys.init emptyDisk) ["a"] none).1.store.vecList[0]? =
      (([] ++ ["a"].zip (metaUsed ["a"] none))[0]?.map
        (fun p : String × Metadata => embedOne p.1)) ∧
    (index_docs embedOne ⟨⟨1, []⟩, []⟩ ["docA"]).1.index.vectors =
      (index_docs embedOne ⟨⟨1, []⟩, []⟩ ["docA"]).1.doc_store.map embedOne :=
  ⟨(c1_parity_amended.1 embedOne _ _
      (ReachHist.step _ [] ["a"] none SaveOutcome.ok ReachHist.init
        (Or.inl rfl) (by decide))).1,
   ((c1_parity_amended.1 embedOne _ _
      (ReachHist.step _ [] ["a"] none SaveOutcome.ok ReachHist.init
        (Or.inl rfl) (by decide))).2.2.2 0).1,
   (c1_parity_amended.2 embedOne 1 _
      (ReachR.step _ ["docA"] 1 ReachR.init (by decide))).2⟩

/-- Counterexample for C1 as stated: `add_documents` with a two-element
metadatas list for a one-document batch completes without raising, yet
leaves one vector against two records — the parity invariant does not
survive every successful ingest. -/
theorem c1_parity_counterexample :
    (add_documents embedOne SaveOutcome.ok (Sys.init emptyDisk) ["a"] (some [[], []])).2 = none ∧
    (add_documents embedOne SaveOutcome.ok (Sys.init emptyDisk) ["a"] (some [[], []])).1.store.vecCount = 1 ∧
    (add_documents embedOne SaveOutcome.ok (Sys.init emptyDisk) ["a"]
      (some [[], []])).1.store.metadata.length = 2 :=
  ⟨by decide, by decide, by decide⟩

/-- A value returned by Python list indexing is an element of the list. -/
theorem pyGet_mem {l : List α} {i : Int} {a : α} (h : pyGet l i = some a) : a ∈ l := by
  simp only [pyGet] at h
  split at h
  · exact List.get?_mem h
  · split at h
    · exact List.get?_mem h
    · simp at h

/-- Python list indexing raises IndexError past the end of the list. -/
theorem pyGet_none_of_ge {l : List α} {i : Int} (h : (l.length : Int) ≤ i) :
    pyGet l i = none := by
  simp only [pyGet]
  rw [if_pos (le_trans (Int.natCast_nonneg _) h)]
  rw [List.get?_eq_none]
  omega

/-- Members of an insertion come from the inserted element or the list. -/
theorem mem_insertLE {le : α → α → Bool} {a x : α} {l : List α}
    (h : x ∈ insertLE le a l) : x = a ∨ x ∈ l := by
  induction l with
  | nil =>
    simp only [insertLE] at h
    exact Or.inl (List.mem_singleton.mp h)
  | cons b bs ih =>
    simp only [insertLE] at h
    split at h
    · rcases List.mem_cons.mp h with h1 | h2
      · exact Or.inl h1
      · exact Or.inr h2
    · rcases List.mem_cons.mp h with h1 | h2
      · exact Or.inr (by simp [h1])
      · rcases ih h2 with h3 | h4
        · exact Or.inl h3
        · exact Or.inr (List.mem_cons_of_mem b h4)

/-- Sorting introduces no new elements. -/
theorem mem_sortLE {le : α → α → Bool} {x : α} {l : List α}
    (h : x ∈ sortLE le l) : x ∈ l := by
  induction l with
  | nil => simp [sortLE] at h
  | cons a as ih =>
    rcases mem_insertLE h with h1 | h2
    · simp [h1]
    · exact List.mem_cons_of_mem a (ih h2)

/-- Positions produced by `withPos` lie in the enumerated range. -/
theorem withPos_mem {b : Int} {l : List Vec} {p : Int × Vec} (h : p ∈ withPos b l) :
    b ≤ p.1 ∧ p.1 < b + l.length := by
  induction l generalizing b with
  | nil => simp [withPos] at h
  | cons v vs ih =>
    simp only [withPos] at h
    rcases List.mem_cons.mp h with h1 | h2
    · rw [h1]
      simp only [List.length_cons]
      omega
    · have h3 := ih h2
      simp only [List.length_cons]
      omega

/-- Every label returned by the inner-product search is either a valid
position into the stored vectors or the padding label `-1`. -/
theorem searchIP_ok {idx : FaissIndex} {q : Vec} {k : Nat}
    {sr : List (Int × WithBot ℚ)} (h : FaissIndex.searchIP idx q k = .ok sr) :
    ∀ p ∈ sr, (0 ≤ p.1 ∧ p.1 < (idx.vectors.length : Int)) ∨ p.1 = -1 := by
  simp only [FaissIndex.searchIP] at h
  split at h
  next => simp at h
  next =>
    split at h
    next => simp at h
    next =>
      have hsr := (Except.ok.inj h).symm
      intro p hp
      rw [hsr] at hp
      rcases List.mem_append.mp hp with h1 | h2
      · left
        have h3 := List.mem_of_mem_take h1
        have h4 := mem_sortLE h3
        obtain ⟨pr, hpr, hpr2⟩ := List.mem_map.mp h4
        have h5 := withPos_mem hpr
        rw [← hpr2]
        exact ⟨h5.1, by simpa using h5.2⟩
      · right
        rw [List.eq_of_mem_replicate h2]

/-- Shape of a non-raising result loop: one output row per search row; a
row whose label resolves to a record yields that record looked up under
`"text"` with default `""`, and an out-of-range non-negative label yields
the empty string, each keeping the search score. -/
theorem resolveEntries_master {md : List Metadata} {sr : List (Int × WithBot ℚ)}
    {res : List (String × WithBot ℚ)} (h : resolveEntries md sr = .ok res) :
    res.length = sr.length ∧
    ∀ j p, sr.get? j = some p →
      (∃ m, pyGet md p.1 = some m ∧
        res.get? j = some ((List.lookup "text" m).getD "", p.2)) ∨
      ((md.length : Int) ≤ p.1 ∧ res.get? j = some ("", p.2)) := by
  induction sr generalizing res with
  | nil =>
    have hres : res = [] := (Except.ok.inj h).symm
    subst hres
    exact ⟨rfl, by intro j p hp; simp at hp⟩
  | cons a as ih =>
    simp only [resolveEntries] at h
    cases ho : resolveOne md a with
    | error pe =>
      rw [ho] at h
      simp [Except.bind, bind] at h
    | ok ent =>
      rw [ho] at h
      cases hr : resolveEntries md as with
      | error pe =>
        rw [hr] at h
        simp [Except.bind, bind] at h
      | ok rest =>
        rw [hr] at h
        simp only [bind, Except.bind] at h
        have hres : res = ent :: rest := (Except.ok.inj h).symm
        subst hres
        obtain ⟨ihlen, ihget⟩ := ih hr
        refine ⟨by simp [ihlen], ?_⟩
        intro j p hp
        cases j with
        | zero =>
          have hpa : p = a := (by simpa using hp : a = p).symm
          subst hpa
          simp only [resolveOne] at ho
          split at ho
          next hlt =>
            cases hg : pyGet md p.1 with
            | none =>
              rw [hg] at ho
              simp at ho
            | some m =>
              rw [hg] at ho
              left
              refine ⟨m, rfl, ?_⟩
              simp [← Except.ok.inj ho]
          next hge =>
            right
            refine ⟨by omega, ?_⟩
            simp [← Except.ok.inj ho]
        | succ j =>
          exact ihget j p (by simpa using hp)

/-- A non-raising query on a store with a nonempty index factors into a
successful search and a successful result loop. -/
theorem query_ok_inv {e : String → Vec} {st : VectorStore} {idx : FaissIndex}
    {q : String} {k : Nat} {res : List (String × WithBot ℚ)}
    (hidx : st.index = some idx) (hne : idx.vectors ≠ [])
    (h : VectorStore.query e st q k = .ok res) :
    ∃ sr, FaissIndex.searchIP idx (e q) k = .ok sr ∧
      resolveEntries st.metadata sr = .ok res := by
  simp only [VectorStore.query, hidx] at h
  rw [if_neg (by simpa [List.isEmpty_iff] using hne)] at h
  cases hs : idx.searchIP (e q) k with
  | error pe =>
    rw [hs] at h
    simp [Except.bind, bind] at h
  | ok sr =>
    rw [hs] at h
    exact ⟨sr, rfl, by simpa [Except.bind, bind] using h⟩

/-- Claim C10: a returned query result whose record lacks the `"text"`
key carries the empty string as its document text; consequently every
result of a query against documents ingested through `add_documents` with
default metadata has the empty string as its text, while documents
ingested through `add_texts_with_metadata` are returned with their
original text (an element of the ingested batch). -/
theorem c10_text_resolution :
    (∀ (e : String → Vec) (st : VectorStore) (idx : FaissIndex) (q : String) (k : Nat)
        (sr : List (Int × WithBot ℚ)) (res : List (String × WithBot ℚ)) (j : Nat)
        (p : Int × WithBot ℚ) (m : Metadata),
      st.index = some idx → idx.vectors ≠ [] →
      FaissIndex.searchIP idx (e q) k = .ok sr →
      VectorStore.query e st q k = .ok res →
      sr.get? j = some p → pyGet st.metadata p.1 = some m →
      List.lookup "text" m = none → res.get? j = some ("", p.2))
  ∧ (∀ (e : String → Vec) (s1 : Sys) (docs : List String) (q : String) (k : Nat)
        (res : List (String × WithBot ℚ)),
      add_documents e SaveOutcome.ok (Sys.init emptyDisk) docs none = (s1, none) →
      VectorStore.query e s1.store q k = .ok res →
      ∀ pr ∈ res, pr.1 = "")
  ∧ ∀ (e : String → Vec) (s1 : Sys) (docs : List String) (q : String) (k : Nat)
        (res : List (String × WithBot ℚ)),
      add_texts_with_metadata e SaveOutcome.ok (Sys.init emptyDisk) docs = (s1, none) →
      VectorStore.query e s1.store q k = .ok res →
      ∀ pr ∈ res, pr.1 ∈ docs := by
  refine ⟨?_, ?_, ?_⟩
  · intro e st idx q k sr res j p m hidx hvne hsearch hq hsr hpg hlk
    obtain ⟨sr2, hs2, hr2⟩ := query_ok_inv hidx hvne hq
    have hsr2 : sr2 = sr := (Except.ok.inj (hsearch.symm.trans hs2)).symm
    subst hsr2
    obtain ⟨hlen, hget⟩ := resolveEntries_master hr2
    rcases hget j p hsr with ⟨m2, hm2, hres⟩ | ⟨hge, hres⟩
    · have hm : m2 = m := Option.some.inj (hm2.symm.trans hpg)
      rw [hm, hlk] at hres
      simpa using hres
    · rw [pyGet_none_of_ge hge] at hpg
      simp at hpg
  · intro e s1 docs q k res hadd hq pr hpr
    obtain ⟨hso, hne, d0, hvlen, hdim, hst, hdisk⟩ := add_documents_success hadd
    have hst2 : s1.store = ⟨some ⟨d0, docs.map e⟩, List.replicate docs.length []⟩ := by
      rw [hst]
      simp [Sys.init, emptyDisk, VectorStore.load, VectorStore.vecList, metaUsed]
    have hidx : s1.store.index = some ⟨d0, docs.map e⟩ := by rw [hst2]
    have hvne : (⟨d0, docs.map e⟩ : FaissIndex).vectors ≠ [] := by
      simp only [ne_eq, List.map_eq_nil_iff]
      exact hne
    obtain ⟨sr, hs, hr⟩ := query_ok_inv hidx hvne hq
    obtain ⟨hlen, hget⟩ := resolveEntries_master hr
    obtain ⟨j, hj⟩ := List.get?_of_mem hpr
    have hjlt : j < res.length := by
      by_contra hc
      rw [List.get?_eq_none.mpr (le_of_not_lt hc)] at hj
      exact Option.noConfusion hj
    have hjsr : j < sr.length := hlen ▸ hjlt
    have hp : sr.get? j = some (sr.get ⟨j, hjsr⟩) := List.get?_eq_get hjsr
    rcases hget j _ hp with ⟨m, hm, hres⟩ | ⟨hge, hres⟩
    · have hprv : pr = ((List.lookup "text" m).getD "", (sr.get ⟨j, hjsr⟩).2) :=
        Option.some.inj (hj.symm.trans hres)
      have hm2 : m ∈ s1.store.metadata := pyGet_mem hm
      rw [hst2] at hm2
      have hm3 : m = [] := List.eq_of_mem_replicate hm2
      rw [hprv, hm3]
      simp [List.lookup]
    · have hprv : pr = ("", (sr.get ⟨j, hjsr⟩).2) := Option.some.inj (hj.symm.trans hres)
      rw [hprv]
  · intro e s1 docs q k res hadd hq pr hpr
    simp only [add_texts_with_metadata] at hadd
    obtain ⟨hso, hne, d0, hvlen, hdim, hst, hdisk⟩ := add_documents_success hadd
    have hst2 : s1.store =
        ⟨some ⟨d0, docs.map e⟩, docs.map (fun d => [("text", d)])⟩ := by
      rw [hst]
      simp [Sys.init, emptyDisk, VectorStore.load, VectorStore.vecList, metaUsed]
    have hidx : s1.store.index = some ⟨d0, docs.map e⟩ := by rw [hst2]
    have hvne : (⟨d0, docs.map e⟩ : FaissIndex).vectors ≠ [] := by
      simp only [ne_eq, List.map_eq_nil_iff]
      exact hne
    obtain ⟨sr, hs, hr⟩ := query_ok_inv hidx hvne hq
    obtain ⟨hlen, hget⟩ := resolveEntries_master hr
    obtain ⟨j, hj⟩ := List.get?_of_mem hpr
    have hjlt : j < res.length := by
      by_contra hc
      rw [List.get?_eq_none.mpr (le_of_not_lt hc)] at hj
      exact Option.noConfusion hj
    have hjsr : j < sr.length := hlen ▸ hjlt
    have hp : sr.get? j = some (sr.get ⟨j, hjsr⟩) := List.get?_eq_get hjsr
    have hmdlen : s1.store.metadata.length = docs.length := by
      rw [hst2]
      simp
    rcases hget j _ hp with ⟨m, hm, hres⟩ | ⟨hge, hres⟩
    · have hprv : pr = ((List.lookup "text" m).getD "", (sr.get ⟨j, hjsr⟩).2) :=
        Option.some.inj (hj.symm.trans hres)
      have hm2 : m ∈ s1.store.metadata := pyGet_mem hm
      rw [hst2] at hm2
      obtain ⟨d, hd, hdm⟩ := List.mem_map.mp hm2
      rw [hprv, ← hdm]
      simpa [List.lookup] using hd
    · exfalso
      have hpmem : sr.get ⟨j, hjsr⟩ ∈ sr := List.get_mem sr j hjsr
      have hb := searchIP_ok hs _ hpmem
      rw [hmdlen] at hge
      rcases hb with ⟨h0, hlt⟩ | hneg
      · simp only [List.length_map] at hlt
        omega
      · rw [hneg] at hge
        omega

/-- Witness for C10 at concrete one-document stores for all three parts. -/
theorem c10_text_resolution_witness :
    ([("", ((1 : ℚ) : WithBot ℚ))] : List (String × WithBot ℚ)).get? 0 =
      some ("", ((1 : ℚ) : WithBot ℚ)) ∧
    (("", (⊥ : WithBot ℚ)) : String × WithBot ℚ).1 = "" ∧
    "a" ∈ ["a"] :=
  ⟨c10_text_resolution.1 embedOne ⟨some ⟨1, [[1]]⟩, [[("k", "v")]]⟩ ⟨1, [[1]]⟩ "q" 1
      [((0 : Int), ((1 : ℚ) : WithBot ℚ))] [("", ((1 : ℚ) : WithBot ℚ))] 0
      ((0 : Int), ((1 : ℚ) : WithBot ℚ)) [("k", "v")] rfl (by decide)
      (by norm_num [FaissIndex.searchIP, withPos, ipScore, sortLE, insertLE, embedOne])
      (by norm_num [VectorStore.query, FaissIndex.searchIP, withPos, ipScore, sortLE,
        insertLE, resolveEntries, resolveOne, pyGet, embedOne, Except.bind, bind,
        List.lookup]; rfl)
      rfl (by decide) (by decide),
   c10_text_resolution.2.1 embedOne
      (add_documents embedOne SaveOutcome.ok (Sys.init emptyDisk) ["a"] none).1 ["a"] "q" 2
      [("", ((1 : ℚ) : WithBot ℚ)), ("", (⊥ : WithBot ℚ))]
      (eq_pair_of_snd_eq (by decide))
      (by norm_num [VectorStore.query, add_documents, Sys.init, emptyDisk, VectorStore.load,
        metaUsed, FaissIndex.add, VectorStore.save, embedOne, FaissIndex.searchIP, withPos,
        ipScore, sortLE, insertLE, resolveEntries, resolveOne, pyGet, Except.bind, bind])
      ("", (⊥ : WithBot ℚ)) (by simp),
   c10_text_resolution.2.2 embedOne
      (add_texts_with_metadata embedOne SaveOutcome.ok (Sys.init emptyDisk) ["a"]).1 ["a"] "q" 1
      [("a", ((1 : ℚ) : WithBot ℚ))]
      (eq_pair_of_snd_eq (by decide))
      (by norm_num [VectorStore.query, add_texts_with_metadata, add_documents, Sys.init,
        emptyDisk, VectorStore.load, metaUsed, FaissIndex.add, VectorStore.save, embedOne,
        FaissIndex.searchIP, withPos, ipScore, sortLE, insertLE, resolveEntries, resolveOne,
        pyGet, Except.bind, bind, List.lookup])
      ("a", ((1 : ℚ) : WithBot ℚ)) (by simp)⟩
